import Mathlib

/-!
Verification of the WhatsApp Web number filter CLI (single-thread and
multi-thread variants).

The development shallowly embeds the pure data-flow of the two scripts:

* file helpers: read_numbers_from_file, write_numbers;
* the classifier open_chat_for_number, with the automation session
  abstracted as an outcome value (the session either raises during
  navigation, locates the invalid-number modal, times out waiting for it,
  or raises while probing);
* the chunking generator chunk_list (Python range semantics, including the
  ValueError for a zero step and the empty result for a negative step);
* the per-chunk classification loop process_numbers_chunk and the threaded
  distributor filter_numbers_threaded (thread scheduling is abstracted by
  an explicit completion order; the classifier is abstracted by a
  deterministic verdict function, and the CPython ThreadPoolExecutor
  ValueError for a non-positive worker count is modelled as an error);
* the pre-flight portion of main (missing input file).

Python string primitives str.strip and single-character str.replace are
modelled at the character-list level so that every definition evaluates by
kernel reduction.
-/

namespace WhatsAppFilter

/-- Models Python str.strip(): remove leading and trailing whitespace. -/
def py_strip (s : String) : String :=
  String.mk (((s.data.dropWhile Char.isWhitespace).reverse.dropWhile Char.isWhitespace).reverse)

/-- Models Python str.replace(c, "") for a one-character pattern: remove
every occurrence of the character. -/
def py_remove (c : Char) (s : String) : String :=
  String.mk (s.data.filter (fun a => !(a == c)))

/-- Constant WHATSAPP_WEB_URL from both scripts. -/
def WHATSAPP_WEB_URL : String := "https://web.whatsapp.com"

/-- Loop body of read_numbers_from_file (both scripts, identical): walk the
stripped lines keeping a seen set and an output list; blank lines are
skipped, a line already in seen is skipped, otherwise it is added to seen
and appended to the output.  The seen set is modelled as a list queried by
membership. -/
def clean_loop (seen : List String) (acc : List String) : List String → List String
  | [] => acc
  | line :: rest =>
    if line = "" then clean_loop seen acc rest
    else if line ∈ seen then clean_loop seen acc rest
    else clean_loop (line :: seen) (acc ++ [line]) rest

/-- Embeds read_numbers_from_file: strip every line, then run the
dedup loop.  The input file is modelled as its list of raw lines. -/
def read_numbers_from_file (raw_lines : List String) : List String :=
  clean_loop [] [] (raw_lines.map py_strip)

/-- Modelled from the spec: the deduplicated list in first-seen order, each
element kept exactly once at the position of its first occurrence.  Used to
compare the code against the wording of the spec. -/
def first_seen_dedup (l : List String) : List String :=
  l.foldl (fun acc x => if x ∈ acc then acc else acc ++ [x]) []

/-- Proof helper: the dedup loop with an explicit seen set and no
accumulator. -/
def dedup_from (seen : List String) : List String → List String
  | [] => []
  | x :: rest =>
    if x = "" then dedup_from seen rest
    else if x ∈ seen then dedup_from seen rest
    else x :: dedup_from (x :: seen) rest

/-- Embeds write_numbers: the path is opened in mode w (truncating whatever
content was there, here the `prior` argument) and each number is written
followed by a newline.  The value is the file content after the call; it
does not depend on `prior`. -/
def write_numbers (prior : String) (numbers : List String) : String :=
  String.join (numbers.map (fun n => n ++ "\n"))

/-- Embeds the sanitization in open_chat_for_number:
phone_number.strip().replace("+", "").replace(" ", ""). -/
def sanitize_number (phone_number : String) : String :=
  py_remove ' ' (py_remove '+' (py_strip phone_number))

/-- Embeds the deep-link URL built in open_chat_for_number. -/
def send_url (phone_number : String) : String :=
  WHATSAPP_WEB_URL ++ "/send?phone=" ++ sanitize_number phone_number
    ++ "&text=&type=phone_number&app_absent=0"

/-- Modelled from the spec: the normalization as the spec words it, namely
strip the leading plus sign and the internal spaces. -/
def claimed_normalize (s : String) : String :=
  py_remove ' ' (match s.data with
    | '+' :: rest => String.mk rest
    | other => String.mk other)

/-- Outcome of the bounded WebDriverWait probe for the invalid-number modal
inside open_chat_for_number. -/
inductive ProbeOutcome where
  | modal_found : ProbeOutcome
  | timed_out : ProbeOutcome
  | raised : String → ProbeOutcome

/-- Behavior of the session during one open_chat_for_number call: either
driver.get itself raises (the exception propagates to the caller), or
navigation succeeds and the probe has one of its three outcomes. -/
inductive NavOutcome where
  | nav_raised : String → NavOutcome
  | nav_ok : ProbeOutcome → NavOutcome

/-- Embeds open_chat_for_number (identical in both scripts).  The returned
pair is (is_registered, reason).  A modal hit returns invalid, a timeout of
the bounded wait returns valid, any other exception during the probe is
caught and returns invalid; only a navigation failure escapes as an
error. -/
def open_chat_for_number (nav : NavOutcome) (phone_number : String) :
    Except String (Bool × String) :=
  match nav with
  | NavOutcome.nav_raised e => Except.error e
  | NavOutcome.nav_ok probe =>
    match probe with
    | ProbeOutcome.modal_found =>
        Except.ok (false, "Invalid popup detected: phone number shared via url is invalid.")
    | ProbeOutcome.timed_out =>
        Except.ok (true, "No invalid popup detected within timeout: treating as valid.")
    | ProbeOutcome.raised e =>
        Except.ok (false, "Error while checking popup: " ++ e)

/-- Embeds the shared classification loop of filter_numbers_single,
filter_numbers (single-thread script) and process_numbers_chunk: walk the
numbers in order, appending each to the valid or the invalid list according
to its verdict.  The session is abstracted by the deterministic verdict
function `classify`. -/
def classify_loop (classify : String → Bool) :
    List String → (List String × List String) → (List String × List String)
  | [], acc => acc
  | num :: rest, acc =>
    if classify num then classify_loop classify rest (acc.1 ++ [num], acc.2)
    else classify_loop classify rest (acc.1, acc.2 ++ [num])

/-- Embeds process_numbers_chunk restricted to its result lists: one worker
classifies its whole chunk in order, starting from empty lists. -/
def process_numbers_chunk (classify : String → Bool) (chunk : List String) :
    List String × List String :=
  classify_loop classify chunk ([], [])

/-- Embeds filter_numbers_single restricted to its result lists. -/
def filter_numbers_single (classify : String → Bool) (numbers : List String) :
    List String × List String :=
  classify_loop classify numbers ([], [])

/-- Fuel-driven model of Python range(i, stop, step) for a positive step:
produce i, i+step, ... while below stop.  The fuel argument makes the
recursion structural; with fuel at least stop - i and a positive step it
never runs out. -/
def py_range_from (step : Nat) : Nat → Nat → Nat → List Nat
  | 0, _, _ => []
  | fuel + 1, i, stop =>
    if 0 < step ∧ i < stop then i :: py_range_from step fuel (i + step) stop else []

/-- Python range(i, stop, step) for a positive step. -/
def py_range (i stop step : Nat) : List Nat :=
  py_range_from step (stop - i) i stop

/-- The chunks produced by chunk_list for a positive chunk size: one slice
lst[i : i + n] per index produced by range(0, len(lst), n). -/
def chunks_of (l : List α) (n : Nat) : List (List α) :=
  (py_range 0 l.length n).map (fun i => (l.drop i).take n)

/-- Embeds chunk_list (with the generator forced into a list, as the caller
does).  Python range semantics: a zero step raises ValueError, a negative
step with a stop of len(lst) at least 0 yields no index at all, a positive
step yields the successive slices. -/
def chunk_list (l : List α) (n : Int) : Except String (List (List α)) :=
  if n = 0 then Except.error "range() arg 3 must not be zero"
  else if n < 0 then Except.ok []
  else Except.ok (chunks_of l n.toNat)

/-- Embeds line 528 of the threaded script: the max_workers value handed to
the thread pool is min(configured max_workers, number of chunks). -/
def pool_max_workers (max_workers : Int) (chunks : List (List String)) : Int :=
  min max_workers (chunks.length : Int)

/-- Embeds the thread-pool portion of filter_numbers_threaded:
construction of the pool (CPython ThreadPoolExecutor raises ValueError when
max_workers is not positive), one worker per chunk, and aggregation of the
futures in completion order.  Scheduling is abstracted by completion_order,
the list of chunk indices in the order the futures complete. -/
def run_pool (classify : String → Bool) (chunks : List (List String))
    (max_workers : Int) (completion_order : List Nat) :
    Except String (List String × List String) :=
  if pool_max_workers max_workers chunks ≤ 0 then
    Except.error "max_workers must be greater than 0"
  else
    Except.ok
      (((completion_order.map
          (fun j => (chunks.map (process_numbers_chunk classify)).getD j ([], []))).map
            Prod.fst).flatten,
       ((completion_order.map
          (fun j => (chunks.map (process_numbers_chunk classify)).getD j ([], []))).map
            Prod.snd).flatten)

/-- Embeds filter_numbers_threaded restricted to its result lists: early
return for an empty input, chunking (a chunking error propagates), then the
thread pool. -/
def filter_numbers_threaded (classify : String → Bool) (numbers : List String)
    (max_workers chunk_size : Int) (completion_order : List Nat) :
    Except String (List String × List String) :=
  if numbers.isEmpty then Except.ok ([], [])
  else
    (chunk_list numbers chunk_size).bind
      (fun chunks => run_pool classify chunks max_workers completion_order)

/-- Observable events of one run of main, used to state what has already
happened when main exits early. -/
inductive RunEvent where
  | session_created : RunEvent
  | number_classified : String → RunEvent
  | output_written : RunEvent

/-- Embeds the pre-flight and single-mode body of main (both scripts check
the input file the same way): if the input file does not exist, main prints
an error and raises SystemExit(1) before reading numbers, before creating
any driver and before writing any output; otherwise it reads the numbers,
creates a session, classifies every number and writes the two output
files.  The first component lists the events of the run in order, the
second is the exit: error 1 for SystemExit(1), ok with the result lists
otherwise. -/
def main_model (input_exists : Bool) (raw_lines : List String)
    (classify : String → Bool) :
    List RunEvent × Except Nat (List String × List String) :=
  if input_exists then
    let numbers := read_numbers_from_file raw_lines
    ([RunEvent.session_created] ++ numbers.map RunEvent.number_classified
        ++ [RunEvent.output_written, RunEvent.output_written],
      Except.ok (filter_numbers_single classify numbers))
  else
    ([], Except.error 1)

end WhatsAppFilter

namespace WhatsAppFilter

/-- The dedup loop with an accumulator is the accumulator followed by the
accumulator-free loop. -/
theorem clean_loop_eq (l : List String) :
    ∀ seen acc, clean_loop seen acc l = acc ++ dedup_from seen l := by
  induction l with
  | nil => intro seen acc; simp [clean_loop, dedup_from]
  | cons x rest ih =>
    intro seen acc
    by_cases hx : x = ""
    · simp [clean_loop, dedup_from, hx, ih]
    · by_cases hseen : x ∈ seen
      · simp [clean_loop, dedup_from, hx, hseen, ih]
      · simp [clean_loop, dedup_from, hx, hseen, ih]

/-- Membership in the dedup loop output: exactly the non-blank lines not
already seen. -/
theorem dedup_from_mem (l : List String) :
    ∀ seen y, y ∈ dedup_from seen l ↔ (y ∈ l ∧ y ≠ "" ∧ y ∉ seen) := by
  induction l with
  | nil => intro seen y; simp [dedup_from]
  | cons x rest ih =>
    intro seen y
    rw [show dedup_from seen (x :: rest)
        = if x = "" then dedup_from seen rest
          else if x ∈ seen then dedup_from seen rest
          else x :: dedup_from (x :: seen) rest from rfl]
    by_cases hx : x = ""
    · rw [if_pos hx, ih]
      subst hx
      simp only [List.mem_cons]
      tauto
    · by_cases hseen : x ∈ seen
      · rw [if_neg hx, if_pos hseen, ih]
        simp only [List.mem_cons]
        by_cases hyx : y = x
        · subst hyx; tauto
        · tauto
      · rw [if_neg hx, if_neg hseen]
        simp only [List.mem_cons, ih]
        by_cases hyx : y = x
        · subst hyx; tauto
        · tauto

/-- The dedup loop output has no duplicates. -/
theorem dedup_from_nodup (l : List String) : ∀ seen, (dedup_from seen l).Nodup := by
  induction l with
  | nil => intro seen; simp [dedup_from]
  | cons x rest ih =>
    intro seen
    by_cases hx : x = ""
    · simpa [dedup_from, hx] using ih seen
    · by_cases hseen : x ∈ seen
      · simpa [dedup_from, hx, hseen] using ih seen
      · simp only [dedup_from, if_neg hx, if_neg hseen, List.nodup_cons]
        refine ⟨fun hmem => ?_, ih (x :: seen)⟩
        have := (dedup_from_mem rest (x :: seen) x).mp hmem
        exact this.2.2 (List.mem_cons_self x seen)

/-- The dedup loop output preserves the order of the input. -/
theorem dedup_from_sublist (l : List String) :
    ∀ seen, (dedup_from seen l).Sublist l := by
  induction l with
  | nil => intro seen; simp [dedup_from]
  | cons x rest ih =>
    intro seen
    by_cases hx : x = ""
    · simpa [dedup_from, hx] using (ih seen).cons x
    · by_cases hseen : x ∈ seen
      · simpa [dedup_from, hx, hseen] using (ih seen).cons x
      · simpa [dedup_from, hx, hseen] using (ih (x :: seen)).cons₂ x

/-- Dropping blank lines first does not change the dedup loop output. -/
theorem dedup_from_filter (l : List String) :
    ∀ seen, dedup_from seen (l.filter (fun s => !(s == ""))) = dedup_from seen l := by
  induction l with
  | nil => intro seen; simp
  | cons x rest ih =>
    intro seen
    by_cases hx : x = ""
    · simp [List.filter_cons, hx, dedup_from, ih]
    · by_cases hseen : x ∈ seen
      · simp [List.filter_cons, hx, dedup_from, hseen, ih]
      · simp [List.filter_cons, hx, dedup_from, hseen, ih]

/-- The first-seen fold agrees with the dedup loop on blank-free input when
the seen set and the accumulator hold the same elements. -/
theorem foldl_dedup (l : List String) :
    ∀ acc seen, (∀ x ∈ l, x ≠ "") → (∀ y, y ∈ seen ↔ y ∈ acc) →
      l.foldl (fun acc x => if x ∈ acc then acc else acc ++ [x]) acc
        = acc ++ dedup_from seen l := by
  induction l with
  | nil => intro acc seen _ _; simp [dedup_from]
  | cons x rest ih =>
    intro acc seen hbl hmem
    have hx : x ≠ "" := hbl x (List.mem_cons_self x rest)
    by_cases hacc : x ∈ acc
    · have hseen : x ∈ seen := (hmem x).mpr hacc
      simp only [List.foldl_cons, if_pos hacc, dedup_from, if_neg hx, if_pos hseen]
      exact ih acc seen (fun y hy => hbl y (List.mem_cons_of_mem x hy)) hmem
    · have hseen : x ∉ seen := fun h => hacc ((hmem x).mp h)
      simp only [List.foldl_cons, if_neg hacc, dedup_from, if_neg hx, if_neg hseen]
      rw [ih (acc ++ [x]) (x :: seen) (fun y hy => hbl y (List.mem_cons_of_mem x hy))
        (fun y => by simp [hmem y, or_comm])]
      simp

/-- Claim C2: read_numbers_from_file returns each distinct non-blank
stripped line exactly once, in order of first occurrence, compared by exact
textual match on the stripped string.  Stated as: the result equals the
first-seen dedup of the stripped non-blank lines, it has no duplicates, its
members are exactly the non-blank stripped lines, and it is a subsequence
of the stripped line list. -/
theorem read_numbers_from_file_spec (raw_lines : List String) :
    read_numbers_from_file raw_lines
        = first_seen_dedup ((raw_lines.map py_strip).filter (fun s => !(s == ""))) ∧
    (read_numbers_from_file raw_lines).Nodup ∧
    (∀ s, s ∈ read_numbers_from_file raw_lines ↔
        (s ∈ raw_lines.map py_strip ∧ s ≠ "")) ∧
    (read_numbers_from_file raw_lines).Sublist (raw_lines.map py_strip) := by
  have hread : read_numbers_from_file raw_lines = dedup_from [] (raw_lines.map py_strip) := by
    rw [read_numbers_from_file, clean_loop_eq]; simp
  refine ⟨?_, ?_, ?_, ?_⟩
  · rw [hread, first_seen_dedup,
      foldl_dedup _ [] [] (fun x hx => by simpa using (List.mem_filter.mp hx).2) (by simp),
      dedup_from_filter]
    simp
  · rw [hread]; exact dedup_from_nodup _ []
  · intro s; rw [hread, dedup_from_mem]; simp
  · rw [hread]; exact dedup_from_sublist _ []

/-- Claim C8: the final overwrite is idempotent, and more generally the
file content after write_numbers is a pure function of the number list,
independent of the previous file content. -/
theorem write_numbers_idempotent (prior : String) (numbers : List String) :
    write_numbers (write_numbers prior numbers) numbers = write_numbers prior numbers ∧
    (∀ other : String, write_numbers prior numbers = write_numbers other numbers) :=
  ⟨rfl, fun _ => rfl⟩

/-- Claim C4: open_chat_for_number is a three-way deterministic case
analysis on the probe outcome — modal found within the bound gives
Invalid, a timeout of the bounded wait gives Valid, any other exception
during the probe gives Invalid — and in all three outcomes it returns
normally (an Except.ok value) rather than raising. -/
theorem open_chat_three_way (n e : String) (probe : ProbeOutcome) :
    open_chat_for_number (NavOutcome.nav_ok ProbeOutcome.modal_found) n
        = Except.ok (false, "Invalid popup detected: phone number shared via url is invalid.") ∧
    open_chat_for_number (NavOutcome.nav_ok ProbeOutcome.timed_out) n
        = Except.ok (true, "No invalid popup detected within timeout: treating as valid.") ∧
    open_chat_for_number (NavOutcome.nav_ok (ProbeOutcome.raised e)) n
        = Except.ok (false, "Error while checking popup: " ++ e) ∧
    (∃ r, open_chat_for_number (NavOutcome.nav_ok probe) n = Except.ok r) := by
  refine ⟨rfl, rfl, rfl, ?_⟩
  cases probe <;> exact ⟨_, rfl⟩

/-- The classification loop appends, to each accumulator component, the
numbers of the list with the corresponding verdict, in list order. -/
theorem classify_loop_eq (classify : String → Bool) (l : List String) :
    ∀ acc, classify_loop classify l acc
        = (acc.1 ++ l.filter classify, acc.2 ++ l.filter (fun m => !classify m)) := by
  induction l with
  | nil => intro acc; simp [classify_loop]
  | cons x rest ih =>
    intro acc
    by_cases hx : classify x
    · simp [classify_loop, hx, ih, List.filter_cons]
    · simp [classify_loop, hx, ih, List.filter_cons]

/-- One worker records, in chunk order, the original chunk elements with a
positive verdict on the valid side and the others on the invalid side. -/
theorem process_numbers_chunk_eq (classify : String → Bool) (chunk : List String) :
    process_numbers_chunk classify chunk
        = (chunk.filter classify, chunk.filter (fun m => !classify m)) := by
  rw [process_numbers_chunk, classify_loop_eq]; simp

/-- Counterexample to claim C5 as stated: the code does not strip only the
leading plus sign, it strips every plus sign.  On the number +1+2 the URL
the code builds carries 12, not the 1+2 that stripping only the leading
plus would give. -/
theorem sanitize_counterexample :
    sanitize_number "+1+2" = "12" ∧
    claimed_normalize "+1+2" = "1+2" ∧
    send_url "+1+2"
      ≠ WHATSAPP_WEB_URL ++ "/send?phone=" ++ claimed_normalize "+1+2"
          ++ "&text=&type=phone_number&app_absent=0" := by
  refine ⟨by decide, by decide, by decide⟩

/-- Claim C5 (amended): normalization is transport-only — the classifier
strips the surrounding whitespace, every plus sign and every space from the
number, but only to build the deep-link URL; the strings recorded in the
valid and invalid result lists are the original chunk elements,
unchanged. -/
theorem normalization_transport_only (classify : String → Bool)
    (chunk : List String) (n : String) :
    send_url n = WHATSAPP_WEB_URL ++ "/send?phone="
        ++ py_remove ' ' (py_remove '+' (py_strip n))
        ++ "&text=&type=phone_number&app_absent=0" ∧
    (process_numbers_chunk classify chunk).1 = chunk.filter classify ∧
    (process_numbers_chunk classify chunk).2 = chunk.filter (fun m => !classify m) := by
  refine ⟨rfl, ?_, ?_⟩ <;> rw [process_numbers_chunk_eq]

/-- Claim C7: the max_workers value handed to the thread pool never exceeds
min(configured max_workers, chunk count); in particular the distributor
never asks for more workers than there are chunks. -/
theorem worker_bound (max_workers : Int) (chunks : List (List String)) :
    pool_max_workers max_workers chunks ≤ min max_workers (chunks.length : Int) ∧
    pool_max_workers max_workers chunks ≤ (chunks.length : Int) ∧
    pool_max_workers max_workers chunks ≤ max_workers :=
  ⟨le_refl _, min_le_right _ _, min_le_left _ _⟩

/-- Claim C9: when the input file does not exist, main exits with
SystemExit(1) — a non-zero status — with an empty event trace: no session
is created, no number is classified, no output file is written. -/
theorem missing_input_preflight (raw_lines : List String) (classify : String → Bool) :
    (main_model false raw_lines classify).2 = Except.error 1 ∧
    (1 : Nat) ≠ 0 ∧
    (main_model false raw_lines classify).1 = [] ∧
    RunEvent.session_created ∉ (main_model false raw_lines classify).1 ∧
    (∀ n, RunEvent.number_classified n ∉ (main_model false raw_lines classify).1) ∧
    RunEvent.output_written ∉ (main_model false raw_lines classify).1 := by
  simp [main_model]

/-- The fuel argument of the range model is irrelevant once it covers the
remaining distance, for a positive step. -/
theorem py_range_from_irrel (step : Nat) (hs : 0 < step) :
    ∀ f1 f2 i stop, stop - i ≤ f1 → stop - i ≤ f2 →
      py_range_from step f1 i stop = py_range_from step f2 i stop := by
  intro f1
  induction f1 with
  | zero =>
    intro f2 i stop h1 _
    have hi : ¬ (i < stop) := by omega
    cases f2 with
    | zero => rfl
    | succ g => simp [py_range_from, hi]
  | succ f ih =>
    intro f2 i stop h1 h2
    cases f2 with
    | zero =>
      have hi : ¬ (i < stop) := by omega
      simp [py_range_from, hi]
    | succ g =>
      by_cases hi : i < stop
      · simp only [py_range_from, if_pos (And.intro hs hi)]
        rw [ih g (i + step) stop (by omega) (by omega)]
      · simp [py_range_from, hi]

/-- Unfolding equation for the range model with a positive step. -/
theorem py_range_unfold (i stop step : Nat) (hs : 0 < step) :
    py_range i stop step
      = if i < stop then i :: py_range (i + step) stop step else [] := by
  rw [py_range, py_range]
  cases hd : stop - i with
  | zero =>
    have hi : ¬ (i < stop) := by omega
    simp [py_range_from, hi]
  | succ d =>
    have hi : i < stop := by omega
    simp only [py_range_from, if_pos (And.intro hs hi), if_pos hi]
    rw [py_range_from_irrel step hs d (stop - (i + step)) (i + step) stop (by omega) (by omega)]

/-- Concatenating the slices of the range indices recovers the dropped
list. -/
theorem py_range_from_flatten (l : List α) (C : Nat) (hC : 0 < C) :
    ∀ fuel i, l.length - i ≤ fuel →
      ((py_range_from C fuel i l.length).map (fun j => (l.drop j).take C)).flatten
        = l.drop i := by
  intro fuel
  induction fuel with
  | zero =>
    intro i h
    have : l.length ≤ i := by omega
    simp [py_range_from, List.drop_eq_nil_of_le this]
  | succ f ih =>
    intro i h
    by_cases hi : i < l.length
    · simp only [py_range_from, if_pos (And.intro hC hi), List.map_cons, List.flatten_cons]
      rw [ih (i + C) (by omega), ← List.drop_drop]
      exact List.take_append_drop C (l.drop i)
    · simp [py_range_from, hi, List.drop_eq_nil_of_le (by omega : l.length ≤ i)]

/-- Length of the range model output: the ceiling of the remaining distance
divided by the step. -/
theorem py_range_from_length (C : Nat) (hC : 0 < C) :
    ∀ fuel i stop, stop - i ≤ fuel →
      (py_range_from C fuel i stop).length = (stop - i + C - 1) / C := by
  intro fuel
  induction fuel with
  | zero =>
    intro i stop h
    have h0 : stop - i = 0 := by omega
    rw [h0]
    simp only [py_range_from, List.length_nil]
    exact (Nat.div_eq_of_lt (by omega : 0 + C - 1 < C)).symm
  | succ f ih =>
    intro i stop h
    by_cases hi : i < stop
    · simp only [py_range_from, if_pos (And.intro hC hi), List.length_cons]
      rw [ih (i + C) stop (by omega)]
      have hd1 : 1 ≤ stop - i := by omega
      have hdi : stop - (i + C) = stop - i - C := by omega
      rw [hdi]
      rcases Nat.lt_or_ge (stop - i) C with hcd | hcd
      · have e1 : stop - i - C = 0 := by omega
        rw [e1]
        rw [Nat.div_eq_of_lt (by omega : 0 + C - 1 < C)]
        have e3 : stop - i + C - 1 = (stop - i - 1) + C := by omega
        rw [e3, Nat.add_div_right _ hC, Nat.div_eq_of_lt (by omega : stop - i - 1 < C)]
      · have e1 : stop - i - C + C - 1 = stop - i - 1 := by omega
        have e2 : stop - i + C - 1 = (stop - i - 1) + C := by omega
        rw [e1, e2, Nat.add_div_right _ hC]
    · have hcond : ¬ (0 < C ∧ i < stop) := fun hc => hi hc.2
      simp only [py_range_from, if_neg hcond, List.length_nil]
      have h0 : stop - i = 0 := by omega
      rw [h0]
      exact (Nat.div_eq_of_lt (by omega : 0 + C - 1 < C)).symm

/-- The k-th index produced by the range model is i + k * step. -/
theorem py_range_from_get (C : Nat) :
    ∀ fuel i stop k (hk : k < (py_range_from C fuel i stop).length),
      (py_range_from C fuel i stop).get ⟨k, hk⟩ = i + k * C := by
  intro fuel
  induction fuel with
  | zero =>
    intro i stop k hk
    simp [py_range_from] at hk
  | succ f ih =>
    intro i stop k hk
    by_cases hc : 0 < C ∧ i < stop
    · have hunf : py_range_from C (f + 1) i stop
          = i :: py_range_from C f (i + C) stop := by
        simp [py_range_from, hc]
      have hk2 : k < (i :: py_range_from C f (i + C) stop).length := hunf ▸ hk
      rw [List.get_of_eq hunf ⟨k, hk⟩]
      cases k with
      | zero => simp
      | succ m =>
        have hm : m < (py_range_from C f (i + C) stop).length := by
          have := hk2
          simp only [List.length_cons] at this
          omega
        rw [List.get_cons_succ, ih (i + C) stop m hm]
        have : (m + 1) * C = m * C + C := Nat.succ_mul m C
        omega
    · simp [py_range_from, if_neg hc] at hk

/-- Concatenating the chunks of a positive chunk size recovers the original
list. -/
theorem chunks_of_flatten (l : List α) (C : Nat) (hC : 0 < C) :
    (chunks_of l C).flatten = l := by
  have := py_range_from_flatten l C hC (l.length - 0) 0 (le_refl _)
  simpa [chunks_of, py_range] using this

/-- Number of chunks: the ceiling of the list length divided by the chunk
size. -/
theorem chunks_of_length (l : List α) (C : Nat) (hC : 0 < C) :
    (chunks_of l C).length = (l.length + C - 1) / C := by
  rw [chunks_of, List.length_map, py_range,
    py_range_from_length C hC (l.length - 0) 0 l.length (le_refl _)]
  simp

/-- The k-th chunk is the contiguous slice starting at k * C. -/
theorem chunks_of_get (l : List α) (C : Nat) (k : Nat)
    (hk : k < (chunks_of l C).length) :
    (chunks_of l C).get ⟨k, hk⟩ = (l.drop (k * C)).take C := by
  have hk2 : k < (py_range 0 l.length C).length := by
    simpa [chunks_of] using hk
  have hidx : (py_range 0 l.length C).get ⟨k, hk2⟩ = 0 + k * C :=
    py_range_from_get C (l.length - 0) 0 l.length k hk2
  calc (chunks_of l C).get ⟨k, hk⟩
      = ((py_range 0 l.length C).map (fun i => (l.drop i).take C)).get
          ⟨k, by simpa [chunks_of] using hk⟩ := rfl
    _ = (l.drop ((py_range 0 l.length C).get ⟨k, hk2⟩)).take C := by
          simp [List.get_eq_getElem, List.getElem_map]
    _ = (l.drop (k * C)).take C := by rw [hidx, Nat.zero_add]

/-- Every chunk has at most C elements. -/
theorem chunks_of_le (l : List α) (C : Nat) :
    ∀ c ∈ chunks_of l C, c.length ≤ C := by
  intro c hc
  rcases List.mem_map.mp hc with ⟨j, _, rfl⟩
  exact List.length_take_le _ _

/-- Every chunk except possibly the last has exactly C elements. -/
theorem chunks_of_full (l : List α) (C : Nat) (hC : 0 < C) (k : Nat)
    (hk : k + 1 < (chunks_of l C).length) :
    ((chunks_of l C).get ⟨k, Nat.lt_of_succ_lt hk⟩).length = C := by
  rw [chunks_of_get, List.length_take, List.length_drop]
  have hcount : k + 2 ≤ (l.length + C - 1) / C := by
    rw [← chunks_of_length l C hC]; omega
  have h3 : (k + 2) * C ≤ l.length + C - 1 := (Nat.le_div_iff_mul_le hC).mp hcount
  have h4 : k * C + 2 * C ≤ l.length + C - 1 := by
    have : (k + 2) * C = k * C + 2 * C := Nat.add_mul k 2 C
    omega
  exact Nat.min_eq_left (by omega)

/-- Claim C3: for a positive chunk size C, chunk_list succeeds and produces
exactly ceil(L / C) chunks; each chunk has at most C elements; the k-th
chunk is the contiguous slice of the input starting at k * C (so the chunks
are disjoint contiguous slices); every chunk except possibly the last has
exactly C elements; and the concatenation of the chunks is the original
list. -/
theorem chunk_list_spec (l : List String) (C : Int) (hC : 0 < C) :
    chunk_list l C = Except.ok (chunks_of l C.toNat) ∧
    (chunks_of l C.toNat).length = (l.length + C.toNat - 1) / C.toNat ∧
    (∀ c ∈ chunks_of l C.toNat, c.length ≤ C.toNat) ∧
    (∀ k, ∀ hk : k < (chunks_of l C.toNat).length,
        (chunks_of l C.toNat).get ⟨k, hk⟩ = (l.drop (k * C.toNat)).take C.toNat) ∧
    (∀ k, ∀ hk : k + 1 < (chunks_of l C.toNat).length,
        ((chunks_of l C.toNat).get ⟨k, Nat.lt_of_succ_lt hk⟩).length = C.toNat) ∧
    (chunks_of l C.toNat).flatten = l := by
  have hCnat : 0 < C.toNat := by omega
  refine ⟨?_, chunks_of_length l C.toNat hCnat, chunks_of_le l C.toNat,
    fun k hk => chunks_of_get l C.toNat k hk,
    fun k hk => chunks_of_full l C.toNat hCnat k hk,
    chunks_of_flatten l C.toNat hCnat⟩
  rw [chunk_list, if_neg (by omega : ¬ C = 0), if_neg (by omega : ¬ C < 0)]

/-- Witness for claim C3 at the concrete list [a, b, c] and chunk size 2. -/
theorem chunk_list_spec_witness :
    (0 : Int) < 2 ∧
    (chunk_list ["a", "b", "c"] 2 = Except.ok (chunks_of ["a", "b", "c"] (2 : Int).toNat) ∧
    (chunks_of ["a", "b", "c"] (2 : Int).toNat).length
        = (["a", "b", "c"].length + (2 : Int).toNat - 1) / (2 : Int).toNat ∧
    (∀ c ∈ chunks_of ["a", "b", "c"] (2 : Int).toNat, c.length ≤ (2 : Int).toNat) ∧
    (∀ k, ∀ hk : k < (chunks_of ["a", "b", "c"] (2 : Int).toNat).length,
        (chunks_of ["a", "b", "c"] (2 : Int).toNat).get ⟨k, hk⟩
          = (["a", "b", "c"].drop (k * (2 : Int).toNat)).take (2 : Int).toNat) ∧
    (∀ k, ∀ hk : k + 1 < (chunks_of ["a", "b", "c"] (2 : Int).toNat).length,
        ((chunks_of ["a", "b", "c"] (2 : Int).toNat).get
            ⟨k, Nat.lt_of_succ_lt hk⟩).length = (2 : Int).toNat) ∧
    (chunks_of ["a", "b", "c"] (2 : Int).toNat).flatten = ["a", "b", "c"]) :=
  ⟨by decide, chunk_list_spec ["a", "b", "c"] 2 (by decide)⟩

/-- Counterexample to claim C10 as stated: with a negative chunk size and a
non-empty input the threaded distributor does not return empty valid and
invalid lists — constructing the thread pool with zero workers raises
ValueError instead. -/
theorem chunk_size_negative_counterexample :
    filter_numbers_threaded (fun _ => true) ["111"] 2 (-1) [] ≠ Except.ok ([], []) := by
  intro h
  rw [show filter_numbers_threaded (fun _ => true) ["111"] 2 (-1) []
      = Except.error "max_workers must be greater than 0" from rfl] at h
  exact Except.noConfusion h

/-- Claim C10 (amended): chunking is partial in chunk_size — for
chunk_size = 0, chunk_list raises the range ValueError; for a negative
chunk_size it yields zero chunks, and on a non-empty input the threaded
distributor then raises the ThreadPoolExecutor ValueError for a
non-positive worker count before submitting any work, classifying nothing
(rather than returning empty result lists). -/
theorem chunk_size_nonpositive (l : List String) (n : Int) (classify : String → Bool)
    (mw : Int) (order : List Nat) (hl : l ≠ []) (hn : n < 0) :
    chunk_list (α := String) l 0 = Except.error "range() arg 3 must not be zero" ∧
    chunk_list l n = Except.ok [] ∧
    filter_numbers_threaded classify l mw n order
      = Except.error "max_workers must be greater than 0" := by
  have hcl : chunk_list l n = (Except.ok [] : Except String (List (List String))) := by
    rw [chunk_list, if_neg (by omega : ¬ n = 0), if_pos hn]
  refine ⟨by rw [chunk_list, if_pos rfl], hcl, ?_⟩
  rw [filter_numbers_threaded, if_neg (by simpa [List.isEmpty_iff] using hl)]
  rw [hcl]
  show run_pool classify [] mw order = _
  rw [run_pool, if_pos (by simp [pool_max_workers] : pool_max_workers mw [] ≤ 0)]

/-- Binding an ok value in Except applies the continuation. -/
theorem except_bind_ok {ε α β : Type} (a : α) (f : α → Except ε β) :
    (Except.ok a : Except ε α).bind f = f a := rfl

/-- Reading every position of a list through getD over its index range
recovers the list. -/
theorem map_getD_range {β : Type} (L : List β) (d : β) :
    (List.range L.length).map (fun j => L.getD j d) = L := by
  apply List.ext_getElem
  · simp
  · intro j h1 h2
    rw [List.getElem_map, List.getElem_range]
    exact List.getD_eq_getElem L d h2

/-- The valid sides followed by the invalid sides of a list of result pairs
is a permutation of the concatenation of both sides pair by pair. -/
theorem flatten_pair_perm (L : List (List String × List String)) :
    List.Perm ((L.map Prod.fst).flatten ++ (L.map Prod.snd).flatten)
      ((L.map (fun r => r.1 ++ r.2)).flatten) := by
  induction L with
  | nil => simp
  | cons r rest ih =>
    simp only [List.map_cons, List.flatten_cons]
    refine List.perm_iff_count.mpr ?_
    intro a
    have hcount := List.Perm.count_eq ih a
    simp only [List.count_append] at hcount ⊢
    omega

/-- Splitting every chunk by a verdict function and concatenating is a
permutation of the concatenation of the chunks. -/
theorem flatten_filter_perm (p : String → Bool) (chunks : List (List String)) :
    List.Perm
      ((chunks.map (fun c => c.filter p ++ c.filter (fun m => !p m))).flatten)
      chunks.flatten := by
  induction chunks with
  | nil => simp
  | cons c rest ih =>
    simp only [List.map_cons, List.flatten_cons]
    exact List.Perm.append (List.filter_append_perm p c) ih

/-- Core property of a completed threaded run: the aggregated valid list
followed by the aggregated invalid list is a permutation of the input
numbers, for any completion order that is a permutation of the chunk
indices. -/
theorem threaded_run_perm (classify : String → Bool) (numbers : List String)
    (mw cs : Int) (order : List Nat) (v i : List String)
    (hcs : 0 < cs)
    (hord : List.Perm order (List.range (chunks_of numbers cs.toNat).length))
    (hrun : filter_numbers_threaded classify numbers mw cs order = Except.ok (v, i)) :
    List.Perm (v ++ i) numbers := by
  rw [filter_numbers_threaded] at hrun
  by_cases hne : numbers.isEmpty
  · rw [if_pos hne] at hrun
    simp only [Except.ok.injEq, Prod.mk.injEq] at hrun
    obtain ⟨hv, hi⟩ := hrun
    subst hv; subst hi
    rw [List.isEmpty_iff.mp hne]
    simp
  · rw [if_neg hne] at hrun
    have hcl : chunk_list numbers cs
        = Except.ok (chunks_of numbers cs.toNat) := by
      rw [chunk_list, if_neg (by omega : ¬ cs = 0), if_neg (by omega : ¬ cs < 0)]
    rw [hcl, except_bind_ok, run_pool] at hrun
    by_cases hw : pool_max_workers mw (chunks_of numbers cs.toNat) ≤ 0
    · rw [if_pos hw] at hrun
      exact Except.noConfusion hrun
    · rw [if_neg hw] at hrun
      simp only [Except.ok.injEq, Prod.mk.injEq] at hrun
      obtain ⟨hv, hi⟩ := hrun
      subst hv; subst hi
      have hlen : ((chunks_of numbers cs.toNat).map (process_numbers_chunk classify)).length
          = (chunks_of numbers cs.toNat).length := List.length_map _ _
      have hop : List.Perm
          (order.map (fun j =>
            ((chunks_of numbers cs.toNat).map (process_numbers_chunk classify)).getD j ([], [])))
          ((chunks_of numbers cs.toNat).map (process_numbers_chunk classify)) := by
        have h1 := hord.map (fun j =>
          ((chunks_of numbers cs.toNat).map (process_numbers_chunk classify)).getD j ([], []))
        rw [show (chunks_of numbers cs.toNat).length
            = ((chunks_of numbers cs.toNat).map (process_numbers_chunk classify)).length
            from hlen.symm] at h1
        rwa [map_getD_range] at h1
      have key := flatten_pair_perm
        (order.map (fun j =>
          ((chunks_of numbers cs.toNat).map (process_numbers_chunk classify)).getD j ([], [])))
      have k2 := (hop.map (fun r => r.1 ++ r.2)).flatten
      have k3 : ((chunks_of numbers cs.toNat).map (process_numbers_chunk classify)).map
            (fun r => r.1 ++ r.2)
          = (chunks_of numbers cs.toNat).map
            (fun c => c.filter classify ++ c.filter (fun m => !classify m)) := by
        rw [List.map_map]
        apply List.map_congr_left
        intro c _
        simp [Function.comp, process_numbers_chunk_eq]
      have k4 : List.Perm
          ((((chunks_of numbers cs.toNat).map (process_numbers_chunk classify)).map
            (fun r => r.1 ++ r.2)).flatten)
          ((chunks_of numbers cs.toNat).flatten) := by
        rw [k3]
        exact flatten_filter_perm classify (chunks_of numbers cs.toNat)
      have k5 : (chunks_of numbers cs.toNat).flatten = numbers :=
        chunks_of_flatten numbers cs.toNat (by omega)
      have k6 : List.Perm ((chunks_of numbers cs.toNat).flatten) numbers := by
        rw [k5]
      exact ((key.trans k2).trans k4).trans k6

/-- Claim C6: in a completed threaded run over a duplicate-free number
list, every number receives exactly one classification — every input
number is in exactly one of the aggregated valid and invalid lists, the
two lists are disjoint and duplicate-free, the combined count of each
input number is exactly one, and within one chunk the recorded lists
follow chunk order (they are subsequences of the chunk). -/
theorem classification_exactly_once (classify : String → Bool) (numbers : List String)
    (mw cs : Int) (order : List Nat) (v i : List String)
    (hnd : numbers.Nodup) (hcs : 0 < cs)
    (hord : List.Perm order (List.range (chunks_of numbers cs.toNat).length))
    (hrun : filter_numbers_threaded classify numbers mw cs order = Except.ok (v, i)) :
    (∀ n, n ∈ numbers ↔ (n ∈ v ∨ n ∈ i)) ∧
    (∀ n, ¬(n ∈ v ∧ n ∈ i)) ∧
    v.Nodup ∧ i.Nodup ∧
    (∀ n ∈ numbers, (v ++ i).count n = 1) ∧
    (∀ c ∈ chunks_of numbers cs.toNat,
        (process_numbers_chunk classify c).1.Sublist c ∧
        (process_numbers_chunk classify c).2.Sublist c) := by
  have hperm := threaded_run_perm classify numbers mw cs order v i hcs hord hrun
  have hnd2 : (v ++ i).Nodup := hperm.nodup_iff.mpr hnd
  obtain ⟨hv, hi2, hdisj⟩ := List.nodup_append.mp hnd2
  refine ⟨?_, ?_, hv, hi2, ?_, ?_⟩
  · intro n
    rw [← List.mem_append]
    exact hperm.mem_iff.symm
  · intro n hn
    exact hdisj hn.1 hn.2
  · intro n hn
    rw [hperm.count_eq n]
    exact List.count_eq_one_of_mem hnd hn
  · intro c _
    rw [process_numbers_chunk_eq]
    exact ⟨List.filter_sublist c, List.filter_sublist c⟩

/-- Witness for claim C6 at the concrete run over [1, 2, 3] with chunk
size 2, two workers and completion order [1, 0]. -/
theorem classification_exactly_once_witness :
    (["1", "2", "3"] : List String).Nodup ∧ (0 : Int) < 2 ∧
    List.Perm [1, 0] (List.range (chunks_of ["1", "2", "3"] (2 : Int).toNat).length) ∧
    filter_numbers_threaded (fun n => !(n == "2")) ["1", "2", "3"] 2 2 [1, 0]
      = Except.ok (["3", "1"], ["2"]) ∧
    ((∀ n, n ∈ (["1", "2", "3"] : List String) ↔ (n ∈ ["3", "1"] ∨ n ∈ ["2"])) ∧
    (∀ n, ¬(n ∈ (["3", "1"] : List String) ∧ n ∈ (["2"] : List String))) ∧
    (["3", "1"] : List String).Nodup ∧ (["2"] : List String).Nodup ∧
    (∀ n ∈ (["1", "2", "3"] : List String), ((["3", "1"] : List String) ++ ["2"]).count n = 1) ∧
    (∀ c ∈ chunks_of ["1", "2", "3"] (2 : Int).toNat,
        (process_numbers_chunk (fun n => !(n == "2")) c).1.Sublist c ∧
        (process_numbers_chunk (fun n => !(n == "2")) c).2.Sublist c)) :=
  ⟨by decide, by decide, by decide, by rfl,
    classification_exactly_once (fun n => !(n == "2")) ["1", "2", "3"] 2 2 [1, 0]
      ["3", "1"] ["2"] (by decide) (by decide) (by decide) (by rfl)⟩

/-- Counterexample to claim C1 as stated: the final convergence write does
not deduplicate — handed an aggregate with a repeat, write_numbers writes
the repeat, so the file content is not the first-seen deduplicated list
for every aggregate. -/
theorem write_dedup_counterexample :
    write_numbers "" ["0", "0"]
      ≠ String.join ((first_seen_dedup ["0", "0"]).map (fun n => n ++ "\n")) := by
  decide

/-- Claim C1 (amended): after all workers complete, the final convergence
write rewrites each of the two output files from scratch — the content is a
pure function of the aggregate, one number per line in aggregate order,
independent of whatever the incremental append phase left in the file.  The
write itself does not deduplicate, but in a completed threaded run over the
deduplicated input the two aggregates are themselves duplicate-free, so
each number appears in its file exactly once, in the order it entered the
aggregate. -/
theorem final_convergence_write (classify : String → Bool) (numbers : List String)
    (mw cs : Int) (order : List Nat) (v i : List String) (prior_v prior_i : String)
    (hnd : numbers.Nodup) (hcs : 0 < cs)
    (hord : List.Perm order (List.range (chunks_of numbers cs.toNat).length))
    (hrun : filter_numbers_threaded classify numbers mw cs order = Except.ok (v, i)) :
    write_numbers prior_v v = String.join (v.map (fun n => n ++ "\n")) ∧
    write_numbers prior_i i = String.join (i.map (fun n => n ++ "\n")) ∧
    v.Nodup ∧ i.Nodup ∧
    (∀ n ∈ v, v.count n = 1) ∧ (∀ n ∈ i, i.count n = 1) := by
  have hperm := threaded_run_perm classify numbers mw cs order v i hcs hord hrun
  have hnd2 : (v ++ i).Nodup := hperm.nodup_iff.mpr hnd
  obtain ⟨hv, hi2, _⟩ := List.nodup_append.mp hnd2
  exact ⟨rfl, rfl, hv, hi2,
    fun n hn => List.count_eq_one_of_mem hv hn,
    fun n hn => List.count_eq_one_of_mem hi2 hn⟩

/-- Witness for claim C1 at the concrete run over [5, 6, 7] with chunk
size 2, two workers, completion order [0, 1] and stale prior file
contents. -/
theorem final_convergence_write_witness :
    (["5", "6", "7"] : List String).Nodup ∧ (0 : Int) < 2 ∧
    List.Perm [0, 1] (List.range (chunks_of ["5", "6", "7"] (2 : Int).toNat).length) ∧
    filter_numbers_threaded (fun n => n == "6") ["5", "6", "7"] 2 2 [0, 1]
      = Except.ok (["6"], ["5", "7"]) ∧
    (write_numbers "stale" ["6"] = String.join ((["6"] : List String).map (fun n => n ++ "\n")) ∧
    write_numbers "old" ["5", "7"]
      = String.join ((["5", "7"] : List String).map (fun n => n ++ "\n")) ∧
    (["6"] : List String).Nodup ∧ (["5", "7"] : List String).Nodup ∧
    (∀ n ∈ (["6"] : List String), (["6"] : List String).count n = 1) ∧
    (∀ n ∈ (["5", "7"] : List String), (["5", "7"] : List String).count n = 1)) :=
  ⟨by decide, by decide, by decide, by rfl,
    final_convergence_write (fun n => n == "6") ["5", "6", "7"] 2 2 [0, 1]
      ["6"] ["5", "7"] "stale" "old" (by decide) (by decide) (by decide) (by rfl)⟩

/-- Witness for claim C10 at the concrete input [111] with chunk size -1. -/
theorem chunk_size_nonpositive_witness :
    (["111"] : List String) ≠ [] ∧ (-1 : Int) < 0 ∧
    (chunk_list (α := String) ["111"] 0 = Except.error "range() arg 3 must not be zero" ∧
    chunk_list ["111"] (-1) = Except.ok [] ∧
    filter_numbers_threaded (fun _ => true) ["111"] 2 (-1) []
      = Except.error "max_workers must be greater than 0") :=
  ⟨by decide, by decide,
    chunk_size_nonpositive ["111"] (-1) (fun _ => true) 2 [] (by decide) (by decide)⟩

end WhatsAppFilter
